import Mathlib

/-!
Verification development for the shmTypes shared-memory library
(src/shmTypes.hpp): relocatable offset pointers, the linear bump
allocator, and the segment object.

Machine model: addresses and size_t values are natural numbers below
2 ^ 64; unsigned machine arithmetic is modelled with explicit `% 2 ^ 64`,
signed 64-bit values (intptr_t) as integers obtained by the two's
complement reading of a 64-bit pattern, and the narrowing cast to the
offset type of width w as reduction modulo 2 ^ w.
-/

namespace Shm

/-- Two's complement signed reading of a w-bit pattern, as in a
static_cast from the raw bits to a signed integer of width w. -/
def toSigned (w : Nat) (u : Nat) : Int :=
  if u < 2 ^ (w - 1) then (u : Int) else (u : Int) - 2 ^ w

/-- Hardware intptr_t difference of two 64-bit addresses:
static_cast<iptr>(t) - static_cast<iptr>(b), which on the machine is the
two's complement reading of (t - b) mod 2 ^ 64. -/
def subPtr (t b : Nat) : Int :=
  toSigned 64 ((t + (2 ^ 64 - b)) % 2 ^ 64)

/-- offset_ptr::set (src/shmTypes.hpp lines 232-247, identical in the
segment_anchor and self_reloc_anchor specialisations): a null target
stores 0, otherwise stored = diff + 1 narrowed to the offset width w.
b is the base supplied by the anchor (address of the pointer itself for
self anchors, the tag cell for segment anchors), t the target address.
The returned value is the raw bit pattern of the stored offset field. -/
def offset_ptr.set (w : Nat) (b t : Nat) : Nat :=
  if t = 0 then 0
  else ((subPtr t b + 1) % (2 : Int) ^ w).toNat

/-- offset_ptr::get (src/shmTypes.hpp lines 204-217, identical in the
other two specialisations): stored 0 decodes to null (address 0); a
non-zero stored value s decodes to base + (s - 1), where for a signed
offset type s is first sign-extended to intptr_t and for an unsigned one
s - 1 is zero-extended; the final addition is uintptr_t arithmetic. -/
def offset_ptr.get (w : Nat) (signed : Bool) (b s : Nat) : Nat :=
  if s = 0 then 0
  else match signed with
    | true => (((b : Int) + (toSigned w s - 1)) % (2 : Int) ^ 64).toNat
    | false => (b + (s - 1)) % 2 ^ 64

/-- The debug-build range check of detail::narrow_checked on the encoded
value diff + 1 (plus the signed-anchor assertion diff != -1): exactly the
inputs for which the narrowing conversion in offset_ptr::set loses
nothing. -/
def fitCheck (w : Nat) (signed : Bool) (b t : Nat) : Bool :=
  match signed with
  | true =>
      decide (-((2 : Int) ^ (w - 1)) ≤ (t : Int) - b + 1) &&
      decide ((t : Int) - b + 1 < (2 : Int) ^ (w - 1)) &&
      decide ((t : Int) - b ≠ -1)
  | false =>
      decide (0 ≤ (t : Int) - b) &&
      decide ((t : Int) - b + 1 < (2 : Int) ^ w)

/-! Arithmetic helpers about toSigned and subPtr. -/

lemma two_pow_cast (b : Nat) : ((2 ^ b : Nat) : Int) = (2 : Int) ^ b := by
  push_cast
  norm_num

lemma two_pow_split_int (w : Nat) (hw : 1 ≤ w) :
    (2 : Int) ^ w = 2 * (2 : Int) ^ (w - 1) := by
  have hww : w = (w - 1) + 1 := by omega
  conv_lhs => rw [hww, pow_succ]
  ring

lemma toSigned_emod (w u : Nat) :
    toSigned w u % (2 : Int) ^ w = (u : Int) % (2 : Int) ^ w := by
  unfold toSigned
  split
  · rfl
  · exact Int.emod_sub_cancel _ _

lemma toSigned_lb (w u : Nat) (hu : u < 2 ^ w) :
    -((2 : Int) ^ (w - 1)) ≤ toSigned w u := by
  have hc1 := two_pow_cast (w - 1)
  have hc2 := two_pow_cast w
  have hp : (0 : Int) < (2 : Int) ^ (w - 1) := by positivity
  have hsplit : (2 : Int) ^ w ≤ 2 * (2 : Int) ^ (w - 1) := by
    rcases Nat.eq_zero_or_pos w with hw0 | hw0
    · subst hw0; norm_num
    · rw [two_pow_split_int w hw0]
  unfold toSigned
  split
  · omega
  · omega

lemma toSigned_ub (w u : Nat) (_hw : 1 ≤ w) (hu : u < 2 ^ w) :
    toSigned w u < (2 : Int) ^ (w - 1) := by
  have hc1 := two_pow_cast (w - 1)
  have hc2 := two_pow_cast w
  have hp : (0 : Int) < (2 : Int) ^ (w - 1) := by positivity
  unfold toSigned
  split
  · omega
  · omega

/-- The hardware pointer difference agrees with the mathematical
difference modulo 2 ^ 64. -/
lemma subPtr_emod (t b : Nat) (hb : b < 2 ^ 64) :
    subPtr t b % (2 : Int) ^ 64 = ((t : Int) - b) % (2 : Int) ^ 64 := by
  unfold subPtr toSigned
  have e1 : (2 : Nat) ^ 64 = 18446744073709551616 := by norm_num
  have e2 : (2 : Int) ^ 64 = 18446744073709551616 := by norm_num
  have e3 : (2 : Nat) ^ (64 - 1) = 9223372036854775808 := by norm_num
  simp only [e1, e2, e3]
  split
  · omega
  · omega

/-- Two integers congruent modulo m and both inside a window of width m
are equal. -/
lemma eq_of_emod_eq_of_window {a b m : Int} (hm : 0 < m)
    (h : a % m = b % m) (h1 : -m < a - b) (h2 : a - b < m) : a = b := by
  have hz : (a - b) % m = 0 := Int.emod_eq_emod_iff_emod_sub_eq_zero.mp h
  obtain ⟨k, hk⟩ := Int.dvd_of_emod_eq_zero hz
  have hk1 : k < 1 := by
    by_contra hc
    push_neg at hc
    have hmm : m * 1 ≤ m * k := Int.mul_le_mul_of_nonneg_left hc (le_of_lt hm)
    rw [mul_one] at hmm
    omega
  have hk2 : -1 < k := by
    by_contra hc
    push_neg at hc
    have hmm : m * k ≤ m * (-1) := Int.mul_le_mul_of_nonneg_left hc (le_of_lt hm)
    rw [mul_neg_one] at hmm
    omega
  have hk0 : k = 0 := by omega
  rw [hk0, mul_zero] at hk
  omega

/-- Core round-trip fact for the encode/decode pair: when the encoded
offset passes the narrow_checked range check (and, for signed widths,
diff is not -1), set followed by get at the same base returns the target
and the stored pattern is non-zero. -/
lemma set_get_aux (w : Nat) (signed : Bool) (b t : Nat)
    (hw : 1 ≤ w) (hw64 : w ≤ 64) (hb : b < 2 ^ 64) (ht : t < 2 ^ 64)
    (ht0 : t ≠ 0) (hfit : fitCheck w signed b t = true) :
    offset_ptr.set w b t ≠ 0 ∧
    offset_ptr.get w signed b (offset_ptr.set w b t) = t := by
  have hdvd : ((2 : Int) ^ w) ∣ (2 : Int) ^ 64 := pow_dvd_pow 2 hw64
  have hposw : (0 : Int) < (2 : Int) ^ w := by positivity
  have hpos64 : (0 : Int) < (2 : Int) ^ 64 := by positivity
  have hsplit : (2 : Int) ^ w = 2 * (2 : Int) ^ (w - 1) := two_pow_split_int w hw
  set d : Int := (t : Int) - b with hd
  -- the stored pattern, as an integer
  have hkey : (subPtr t b + 1) % (2 : Int) ^ w = (d + 1) % (2 : Int) ^ w := by
    calc (subPtr t b + 1) % (2 : Int) ^ w
        = ((subPtr t b + 1) % (2 : Int) ^ 64) % (2 : Int) ^ w :=
          (Int.emod_emod_of_dvd _ hdvd).symm
      _ = ((d + 1) % (2 : Int) ^ 64) % (2 : Int) ^ w := by
          rw [Int.add_emod (subPtr t b) 1, subPtr_emod t b hb, ← Int.add_emod]
      _ = (d + 1) % (2 : Int) ^ w := Int.emod_emod_of_dvd _ hdvd
  have hset : offset_ptr.set w b t = ((d + 1) % (2 : Int) ^ w).toNat := by
    unfold offset_ptr.set
    rw [if_neg ht0, hkey]
  set sInt : Int := (d + 1) % (2 : Int) ^ w with hsInt
  have hs0 : 0 ≤ sInt := Int.emod_nonneg _ (ne_of_gt hposw)
  have hslt : sInt < (2 : Int) ^ w := Int.emod_lt_of_pos _ hposw
  have hcastS : ((offset_ptr.set w b t : Nat) : Int) = sInt := by
    rw [hset]; exact Int.toNat_of_nonneg hs0
  have hsNatLt : offset_ptr.set w b t < 2 ^ w := by
    have : ((offset_ptr.set w b t : Nat) : Int) < ((2 ^ w : Nat) : Int) := by
      rw [hcastS]; push_cast; exact hslt
    exact_mod_cast this
  cases signed with
  | true =>
    simp only [fitCheck, Bool.and_eq_true, decide_eq_true_eq] at hfit
    obtain ⟨⟨hf1, hf2⟩, hf3⟩ := hfit
    rw [← hd] at hf1 hf2 hf3
    -- the stored pattern is non-zero
    have hne : offset_ptr.set w b t ≠ 0 := by
      intro hzero
      have hz : sInt = 0 := by
        have hcc := hcastS
        rw [hzero] at hcc
        simpa using hcc.symm
      have hd1 : d + 1 = 0 := by
        apply eq_of_emod_eq_of_window hposw
        · rw [← hsInt, hz, Int.zero_emod]
        · omega
        · omega
      exact hf3 (by omega)
    refine ⟨hne, ?_⟩
    unfold offset_ptr.get
    rw [if_neg hne]
    have hts : toSigned w (offset_ptr.set w b t) = d + 1 := by
      apply eq_of_emod_eq_of_window hposw
      · rw [toSigned_emod, hcastS, hsInt, Int.emod_emod_of_dvd _ (dvd_refl _)]
      · have l1 := toSigned_lb w _ hsNatLt
        omega
      · have l2 := toSigned_ub w _ hw hsNatLt
        omega
    rw [hts]
    have : (b : Int) + (d + 1 - 1) = (t : Int) := by rw [hd]; ring
    rw [this, Int.emod_eq_of_lt (Int.ofNat_nonneg t) (by exact_mod_cast ht)]
    exact Int.toNat_ofNat t
  | false =>
    simp only [fitCheck, Bool.and_eq_true, decide_eq_true_eq] at hfit
    obtain ⟨hf1, hf2⟩ := hfit
    rw [← hd] at hf1 hf2
    have hseq : sInt = d + 1 := by
      rw [hsInt]; exact Int.emod_eq_of_lt (by omega) hf2
    have hne : offset_ptr.set w b t ≠ 0 := by
      intro hzero
      have : sInt = 0 := by
        have := hcastS; rw [hzero] at this; simpa using this.symm
      omega
    refine ⟨hne, ?_⟩
    unfold offset_ptr.get
    rw [if_neg hne]
    simp only
    have hble : b ≤ t := by
      have : (b : Int) ≤ t := by omega
      exact_mod_cast this
    have hsv : offset_ptr.set w b t = (t - b) + 1 := by
      have hc2 : ((offset_ptr.set w b t : Nat) : Int) = ((t - b : Nat) : Int) + 1 := by
        rw [hcastS, hseq, hd]; push_cast [Nat.cast_sub hble]; ring
      exact_mod_cast hc2
    rw [hsv]
    simp only [Nat.add_sub_cancel]
    rw [Nat.add_sub_cancel' hble]
    exact Nat.mod_eq_of_lt ht

/-! ### C1: encode/decode round trip -/

/-- Claim C1: for every anchor kind (the base b below is whatever the
anchor supplies: the address of the pointer itself for self anchors, the
tag cell for segment anchors) and every offset width w and signedness,
constructing an offset_ptr from a non-null pointer t whose difference
from the anchor base fits the offset width (in the sense of the
narrow_checked range check on the encoded value, and, for signed widths,
is not -1) and then calling get from the same location returns exactly t;
constructing from null (or default-constructing, stored value 0) and
calling get returns null (address 0). -/
theorem offset_ptr_roundtrip (w : Nat) (signed : Bool) (b t : Nat)
    (hw : 1 ≤ w) (hw64 : w ≤ 64) (hb : b < 2 ^ 64) (ht : t < 2 ^ 64) :
    (t ≠ 0 → fitCheck w signed b t = true →
      offset_ptr.get w signed b (offset_ptr.set w b t) = t)
    ∧ offset_ptr.set w b 0 = 0
    ∧ offset_ptr.get w signed b 0 = 0 := by
  refine ⟨fun ht0 hfit => (set_get_aux w signed b t hw hw64 hb ht ht0 hfit).2, ?_, ?_⟩
  · unfold offset_ptr.set
    rw [if_pos rfl]
  · unfold offset_ptr.get
    rw [if_pos rfl]

/-- Witness for C1 at a concrete input: a signed 32-bit self-anchored
pointer residing at address 1000 encoding target 2000 decodes back to
2000, and the null encodings decode to null. -/
theorem offset_ptr_roundtrip_witness :
    offset_ptr.get 32 true 1000 (offset_ptr.set 32 1000 2000) = 2000
    ∧ offset_ptr.set 32 1000 0 = 0
    ∧ offset_ptr.get 32 true 1000 0 = 0 := by
  obtain ⟨h1, h2, h3⟩ := offset_ptr_roundtrip 32 true 1000 2000
    (by decide) (by decide) (by decide) (by decide)
  exact ⟨h1 (by decide) (by decide), h2, h3⟩

/-! ### C4: assignment between self-anchored pointers re-encodes -/

/-- offset_ptr::operator= for the self_anchor specialisation
(src/shmTypes.hpp lines 190-193): set(other.get()). ap is the address of
the destination pointer object, aq the address of the source pointer
object, sq the stored value of the source. The result is the stored
value of the destination after assignment (copy construction, line 189,
performs the same set(other.get())). -/
def self_assign (w : Nat) (signed : Bool) (ap aq sq : Nat) : Nat :=
  offset_ptr.set w ap (offset_ptr.get w signed aq sq)

/-- Claim C4 counterexample: two signed 32-bit self-anchored pointers,
q at address 1000 pointing at 2000 (stored 1001), p at address 2001.
After p = q the referent offset from p is 2000 - 2001 = -1, whose
encoding collides with the null sentinel, so p.get() is null while
q.get() is 2000: assignment does not preserve the decoded referent at
arbitrary addresses. -/
theorem self_assign_counterexample :
    offset_ptr.get 32 true 1000 1001 = 2000
    ∧ offset_ptr.get 32 true 2001 (self_assign 32 true 2001 1000 1001) = 0
    ∧ (0 : Nat) ≠ 2000 := by
  refine ⟨?_, ?_, by decide⟩ <;> decide

/-- Claim C4 (amended): after p = q between self-anchored pointers at
addresses ap and aq, p.get() equals q.get() provided the referent is
null, or the offset of the referent from the destination address passes
the encoding range check and is not -1 (the debug-asserted conditions of
offset_ptr::set). -/
theorem self_assign_reencode (w : Nat) (signed : Bool) (ap aq sq : Nat)
    (hw : 1 ≤ w) (hw64 : w ≤ 64) (hap : ap < 2 ^ 64)
    (hfit : offset_ptr.get w signed aq sq = 0
      ∨ fitCheck w signed ap (offset_ptr.get w signed aq sq) = true) :
    offset_ptr.get w signed ap (self_assign w signed ap aq sq)
      = offset_ptr.get w signed aq sq := by
  unfold self_assign
  set g := offset_ptr.get w signed aq sq with hg
  rcases hfit with hnull | hfit
  · rw [hnull]
    unfold offset_ptr.set
    rw [if_pos rfl]
    unfold offset_ptr.get
    rw [if_pos rfl]
  · by_cases hg0 : g = 0
    · rw [hg0]
      unfold offset_ptr.set
      rw [if_pos rfl]
      unfold offset_ptr.get
      rw [if_pos rfl]
    · have hglt : g < 2 ^ 64 := by
        rw [hg]
        unfold offset_ptr.get
        split
        · positivity
        · cases signed with
          | true =>
            simp only
            have hpos64 : (0 : Int) < (2 : Int) ^ 64 := by positivity
            have h0 : (0 : Int) ≤ ((aq : Int) + (toSigned w sq - 1)) % (2 : Int) ^ 64 :=
              Int.emod_nonneg _ (ne_of_gt hpos64)
            have h1 : ((aq : Int) + (toSigned w sq - 1)) % (2 : Int) ^ 64 < (2 : Int) ^ 64 :=
              Int.emod_lt_of_pos _ hpos64
            have hc := two_pow_cast 64
            apply (Int.toNat_lt h0).mpr
            omega
          | false =>
            simp only
            exact Nat.mod_lt _ (by positivity)
      exact (set_get_aux w signed ap g hw hw64 hap hglt hg0 hfit).2

/-- Witness for C4 (amended) at a concrete input: q at 1000 stores 1001
(referent 2000), p resides at 1000000; after assignment p decodes to
2000 as well. -/
theorem self_assign_reencode_witness :
    offset_ptr.get 32 true 1000000 (self_assign 32 true 1000000 1000 1001)
      = offset_ptr.get 32 true 1000 1001 :=
  self_assign_reencode 32 true 1000000 1000 1001
    (by decide) (by decide) (by decide) (Or.inr (by decide))

/-! ### C5: null-storage equivalence -/

/-- Claim C5 counterexample: a signed 32-bit offset pointer residing at
address 100 is set to the non-null target 2 ^ 32. The release-build
narrowing silently truncates the encoded value to the pattern
2 ^ 32 - 99 (the signed value -99), which is non-zero, yet get decodes
it to 100 + (-99 - 1) = 0, the null address: a non-zero stored value can
decode to null, so get() == null is not equivalent to
raw_storage() == 0. -/
theorem null_storage_counterexample :
    offset_ptr.set 32 100 (2 ^ 32) ≠ 0
    ∧ offset_ptr.get 32 true 100 (offset_ptr.set 32 100 (2 ^ 32)) = 0 := by
  refine ⟨?_, ?_⟩ <;> decide

/-- Claim C5 (amended): raw_storage() == 0 always decodes to null; and
for a pointer whose stored value is 0 or was produced by encoding a
non-null pointer at the current base with an offset that passes the
encoding range check (no truncation; the debug-asserted conditions of
offset_ptr::set), get() == null holds exactly when raw_storage() == 0. -/
theorem null_storage_equiv (w : Nat) (signed : Bool) (b t : Nat)
    (hw : 1 ≤ w) (hw64 : w ≤ 64) (hb : b < 2 ^ 64) (ht : t < 2 ^ 64) :
    offset_ptr.get w signed b 0 = 0
    ∧ (t ≠ 0 → fitCheck w signed b t = true →
        (offset_ptr.get w signed b (offset_ptr.set w b t) = 0
          ↔ offset_ptr.set w b t = 0)) := by
  constructor
  · unfold offset_ptr.get
    rw [if_pos rfl]
  · intro ht0 hfit
    obtain ⟨hne, hget⟩ := set_get_aux w signed b t hw hw64 hb ht ht0 hfit
    rw [hget]
    exact ⟨fun h => absurd h ht0, fun h => absurd h hne⟩

/-- Witness for C5 (amended) at a concrete input: an unsigned 32-bit
segment-anchored pointer with base 4096 encoding target 8192; neither
side of the equivalence holds (the pointer is non-null both ways), and
stored 0 decodes to null. -/
theorem null_storage_equiv_witness :
    offset_ptr.get 32 false 4096 0 = 0
    ∧ (offset_ptr.get 32 false 4096 (offset_ptr.set 32 4096 8192) = 0
        ↔ offset_ptr.set 32 4096 8192 = 0) := by
  obtain ⟨h1, h2⟩ := null_storage_equiv 32 false 4096 8192
    (by decide) (by decide) (by decide) (by decide)
  exact ⟨h1, h2 (by decide) (by decide)⟩

/-! ### C6: segment-anchored pointers copy as plain integers -/

/-- A segment-anchored offset_ptr object in memory: the address at which
the object resides and its single stored field (the only data member,
src/shmTypes.hpp line 324). -/
structure SegPtrObj where
  selfAddr : Nat
  stored : Nat
deriving DecidableEq, Repr

/-- Copy construction / copy assignment of the segment_anchor
specialisation (src/shmTypes.hpp lines 267-270, all defaulted): a
memberwise copy of the stored integer into the destination object, whose
own address is unchanged. -/
def segment_ptr_assign (dst src : SegPtrObj) : SegPtrObj :=
  { selfAddr := dst.selfAddr, stored := src.stored }

/-- A bit-copy (memcpy) of a segment-anchored pointer object to another
address: the stored integer travels verbatim. -/
def segment_ptr_relocate (p : SegPtrObj) (newAddr : Nat) : SegPtrObj :=
  { selfAddr := newAddr, stored := p.stored }

/-- offset_ptr<segment_anchor>::get (src/shmTypes.hpp lines 281-294):
the base comes from the tag cell (segment_anchor::base ignores the
object address: it is called with nullptr), so decoding is a function of
the tag base and the stored value only. -/
def segment_ptr_get (w : Nat) (signed : Bool) (tagBase : Nat) (p : SegPtrObj) : Nat :=
  offset_ptr.get w signed tagBase p.stored

/-- Claim C6: copy construction, copy assignment and bit-copy of a
segment-anchored offset_ptr leave raw_storage() unchanged (trivial
integer copy) regardless of the addresses at which the objects reside,
and consequently the copy decodes to the same address as the source
under any tag base; decoding never depends on the object address. -/
theorem segment_ptr_trivial_copy :
    (∀ p q : SegPtrObj, (segment_ptr_assign p q).stored = q.stored
      ∧ (segment_ptr_assign p q).selfAddr = p.selfAddr)
    ∧ (∀ (p : SegPtrObj) (a : Nat), (segment_ptr_relocate p a).stored = p.stored)
    ∧ (∀ (w : Nat) (signed : Bool) (tagBase : Nat) (p q : SegPtrObj),
        segment_ptr_get w signed tagBase (segment_ptr_assign p q)
          = segment_ptr_get w signed tagBase q)
    ∧ (∀ (w : Nat) (signed : Bool) (tagBase s a1 a2 : Nat),
        segment_ptr_get w signed tagBase ⟨a1, s⟩
          = segment_ptr_get w signed tagBase ⟨a2, s⟩) := by
  refine ⟨fun p q => ⟨rfl, rfl⟩, fun p a => rfl, fun w signed tagBase p q => rfl,
    fun w signed tagBase s a1 a2 => rfl⟩

/-! ### Linear allocator (src/shmTypes.hpp lines 450-621) -/

/-- The fields of linear_allocator that the allocation path reads:
arena_addr_ (uintptr_t of arena_start), the immutable capacity_, and the
atomic cursor_. -/
structure AllocState where
  arenaAddr : Nat
  capacity : Nat
  cursor : Nat
deriving DecidableEq, Repr

/-- uintptr_t subtraction x - y on 64-bit machine words. -/
def sub64 (x y : Nat) : Nat :=
  (x + (2 ^ 64 - y % 2 ^ 64)) % 2 ^ 64

/-- The alignment-0-means-1 normalisation at the top of
linear_allocator::alloc (line 484). -/
def normAlign (a : Nat) : Nat :=
  if a = 0 then 1 else a

/-- The aligned-address computation inside the alloc loop (lines
486-501): for a power-of-two alignment, (addr + mask) & ~mask in
uintptr_t arithmetic (~mask being the 64-bit complement of mask);
otherwise addr when addr % al is zero, else addr + (al - addr % al). -/
def alignUp64 (addr al : Nat) : Nat :=
  if al &&& (al - 1) = 0 then
    ((addr + (al - 1)) % 2 ^ 64) &&& ((2 ^ 64 - 1) - (al - 1))
  else
    if addr % al = 0 then addr else (addr + (al - addr % al)) % 2 ^ 64

/-- aligned_off as computed by alloc for the observed cursor value
(lines 492-507): the uintptr_t difference between the aligned address
and arena_addr_. -/
def alignedOffAt (st : AllocState) (a : Nat) : Nat :=
  sub64 (alignUp64 ((st.arenaAddr + st.cursor) % 2 ^ 64) (normAlign a)) st.arenaAddr

/-- linear_allocator::alloc (lines 480-520), sequential execution: with
no concurrent writers the first compare_exchange iteration succeeds, so
the CAS loop collapses to one pass over the observed cursor. Returns
the raw pointer (none for nullptr) and the post-state. -/
def linear_allocator.alloc (st : AllocState) (n a : Nat) : Option Nat × AllocState :=
  if n = 0 then (none, st)
  else if st.capacity < st.cursor then (none, st)
  else if st.capacity < alignedOffAt st a then (none, st)
  else if st.capacity - alignedOffAt st a < n then (none, st)
  else (some ((st.arenaAddr + alignedOffAt st a) % 2 ^ 64),
        { st with cursor := alignedOffAt st a + n })

/-- linear_allocator::reset (lines 553-555): store cursor = 0. -/
def linear_allocator.reset (st : AllocState) : AllocState :=
  { st with cursor := 0 }

/-- linear_allocator::secure_reset (lines 557-561): memset the used
prefix of the arena bytes to zero (which touches no allocator header
field), then store cursor = 0. -/
def linear_allocator.secure_reset (st : AllocState) : AllocState :=
  { st with cursor := 0 }

/-- linear_allocator::used (lines 563-565): the current cursor. -/
def linear_allocator.used (st : AllocState) : Nat :=
  st.cursor

/-- The linear_allocator constructor (lines 461-473): cursor_ starts at
0 over the given arena address and capacity. -/
def mkAllocator (arenaAddr capacity : Nat) : AllocState :=
  { arenaAddr := arenaAddr, capacity := capacity, cursor := 0 }

/-- One call against the allocator, for stating state invariants. -/
inductive AllocOp where
  | alloc (n a : Nat)
  | reset
  | secure_reset
deriving DecidableEq, Repr

def runOp (st : AllocState) : AllocOp → AllocState
  | AllocOp.alloc n a => (linear_allocator.alloc st n a).2
  | AllocOp.reset => linear_allocator.reset st
  | AllocOp.secure_reset => linear_allocator.secure_reset st

def runOps (st : AllocState) (ops : List AllocOp) : AllocState :=
  ops.foldl runOp st

/-! Alignment arithmetic facts. -/

/-- A positive value whose bitwise and with its predecessor is zero is a
power of two (the pow2 test at line 486). -/
lemma exists_pow2 (al : Nat) (h1 : 0 < al) (h : al &&& (al - 1) = 0) :
    ∃ k, al = 2 ^ k := by
  refine ⟨Nat.log2 al, ?_⟩
  set k := Nat.log2 al with hk
  have hle : 2 ^ k ≤ al := Nat.log2_self_le (by omega)
  have hlt : al < 2 ^ (k + 1) := Nat.lt_log2_self
  have h2k : 2 ^ (k + 1) = 2 * 2 ^ k := by rw [pow_succ]; ring
  by_contra hne
  have hgt : 2 ^ k < al := lt_of_le_of_ne hle (fun e => hne e.symm)
  have hb1 : al.testBit k = true := by
    rw [Nat.testBit_to_div_mod]
    have hdiv : al / 2 ^ k = 1 := by
      apply Nat.div_eq_of_lt_le
      · omega
      · omega
    rw [hdiv]
    decide
  have hb2 : (al - 1).testBit k = true := by
    rw [Nat.testBit_to_div_mod]
    have hdiv : (al - 1) / 2 ^ k = 1 := by
      apply Nat.div_eq_of_lt_le
      · omega
      · omega
    rw [hdiv]
    decide
  have hland : (al &&& (al - 1)).testBit k = true := by
    rw [Nat.testBit_and, hb1, hb2]
    decide
  rw [h] at hland
  simp [Nat.zero_testBit] at hland

/-- Masking a 64-bit value with the complement of a low power-of-two
mask rounds it down to the power of two. -/
lemma land_mask_eq (x k : Nat) (hk : k ≤ 64) (hx : x < 2 ^ 64) :
    x &&& (2 ^ 64 - 2 ^ k) = 2 ^ k * (x / 2 ^ k) := by
  have hsum : (64 - k) + k = 64 := by omega
  have hmask : 2 ^ 64 - 2 ^ k = (2 ^ (64 - k) - 1) <<< k := by
    rw [Nat.shiftLeft_eq, Nat.sub_mul, one_mul, ← pow_add, hsum]
  have hrhs : 2 ^ k * (x / 2 ^ k) = (x >>> k) <<< k := by
    rw [Nat.shiftLeft_eq, Nat.shiftRight_eq_div_pow, Nat.mul_comm]
  rw [hmask, hrhs]
  apply Nat.eq_of_testBit_eq
  intro i
  rw [Nat.testBit_and, Nat.testBit_shiftLeft, Nat.testBit_shiftLeft,
    Nat.testBit_shiftRight, Nat.testBit_two_pow_sub_one]
  by_cases hik : k ≤ i
  · have hki : k + (i - k) = i := by omega
    rw [hki]
    by_cases hi64 : i < 64
    · simp [hik, show i - k < 64 - k by omega]
    · have hxf : x.testBit i = false :=
        Nat.testBit_lt_two_pow
          (lt_of_lt_of_le hx (Nat.pow_le_pow_right (by norm_num) (by omega)))
      simp [hxf]
  · simp [hik]

/-- The mathematical round-up-to-multiple that both branches of the
aligned-address computation implement when nothing wraps. -/
def alignUpMath (addr al : Nat) : Nat :=
  if addr % al = 0 then addr else addr + (al - addr % al)

lemma alignUpMath_spec (addr al : Nat) (hal : 0 < al) :
    al ∣ alignUpMath addr al ∧ addr ≤ alignUpMath addr al
      ∧ alignUpMath addr al ≤ addr + (al - 1) := by
  unfold alignUpMath
  by_cases h : addr % al = 0
  · rw [if_pos h]
    exact ⟨Nat.dvd_of_mod_eq_zero h, Nat.le_refl _, Nat.le_add_right _ _⟩
  · rw [if_neg h]
    have h1 : addr % al < al := Nat.mod_lt _ hal
    have h2 : al * (addr / al) + addr % al = addr := Nat.div_add_mod addr al
    refine ⟨?_, by omega, by omega⟩
    have h3 : addr + (al - addr % al) = al * (addr / al + 1) := by
      rw [Nat.mul_add, Nat.mul_one]
      generalize al * (addr / al) = X at h2 ⊢
      omega
    rw [h3]
    exact Dvd.intro _ rfl

lemma pow2_roundup_eq (addr k : Nat) :
    2 ^ k * ((addr + (2 ^ k - 1)) / 2 ^ k) = alignUpMath addr (2 ^ k) := by
  have hA : 0 < 2 ^ k := Nat.pos_pow_of_pos k (by norm_num)
  have h2 : 2 ^ k * (addr / 2 ^ k) + addr % 2 ^ k = addr := Nat.div_add_mod addr (2 ^ k)
  have hrlt : addr % 2 ^ k < 2 ^ k := Nat.mod_lt _ hA
  have hexp : 2 ^ k * (addr / 2 ^ k + 1) = 2 ^ k * (addr / 2 ^ k) + 2 ^ k := by ring
  unfold alignUpMath
  by_cases h : addr % 2 ^ k = 0
  · rw [if_pos h]
    have hd0 : (2 ^ k - 1) / 2 ^ k = 0 := Nat.div_eq_of_lt (by omega)
    have he : addr + (2 ^ k - 1) = 2 ^ k * (addr / 2 ^ k) + (2 ^ k - 1) := by
      generalize 2 ^ k * (addr / 2 ^ k) = X at h2 ⊢
      omega
    rw [he, Nat.mul_add_div hA, hd0, Nat.add_zero]
    generalize 2 ^ k * (addr / 2 ^ k) = X at h2 ⊢
    omega
  · rw [if_neg h]
    have hd0 : (addr % 2 ^ k - 1) / 2 ^ k = 0 := Nat.div_eq_of_lt (by omega)
    have he : addr + (2 ^ k - 1) = 2 ^ k * (addr / 2 ^ k + 1) + (addr % 2 ^ k - 1) := by
      rw [hexp]
      generalize 2 ^ k * (addr / 2 ^ k) = X at h2 ⊢
      omega
    rw [he, Nat.mul_add_div hA, hd0, Nat.add_zero, hexp]
    generalize 2 ^ k * (addr / 2 ^ k) = X at h2 ⊢
    omega

/-- When the computation cannot wrap, the machine aligned-address
computation agrees with the mathematical round-up on both branches. -/
lemma alignUp64_eq (addr al : Nat) (h1 : 0 < al) (hwrap : addr + al ≤ 2 ^ 64) :
    alignUp64 addr al = alignUpMath addr al := by
  unfold alignUp64
  by_cases hp : al &&& (al - 1) = 0
  · rw [if_pos hp]
    obtain ⟨k, rfl⟩ := exists_pow2 al h1 hp
    have hA : 0 < 2 ^ k := Nat.pos_pow_of_pos k (by norm_num)
    have hk64 : k ≤ 64 := by
      by_contra hk
      push_neg at hk
      have hgt : 2 ^ 64 < 2 ^ k := Nat.pow_lt_pow_right (by norm_num) hk
      omega
    have hle : (2 : Nat) ^ k ≤ 2 ^ 64 := Nat.pow_le_pow_right (by norm_num) hk64
    have hmask : (2 ^ 64 - 1) - (2 ^ k - 1) = 2 ^ 64 - 2 ^ k := by omega
    have haddr : (addr + (2 ^ k - 1)) % 2 ^ 64 = addr + (2 ^ k - 1) :=
      Nat.mod_eq_of_lt (by omega)
    rw [haddr, hmask, land_mask_eq _ k hk64 (by omega), pow2_roundup_eq]
  · rw [if_neg hp]
    unfold alignUpMath
    by_cases hr : addr % al = 0
    · rw [if_pos hr, if_pos hr]
    · rw [if_neg hr, if_neg hr]
      have hrlt : addr % al < al := Nat.mod_lt _ h1
      exact Nat.mod_eq_of_lt (by omega)

/-- normAlign computes max(alignment, 1). -/
lemma normAlign_eq_max (a : Nat) : normAlign a = max a 1 := by
  unfold normAlign
  rcases Nat.eq_zero_or_pos a with h | h
  · subst h; rfl
  · rw [if_neg (by omega)]
    omega

/-! ### C2: postconditions of a successful alloc -/

/-- Claim C2 counterexample: the aligned-address computation is
uintptr_t arithmetic and can wrap. On an allocator over arena address 1
with capacity 2 ^ 64 - 1 whose cursor has reached 2 ^ 64 - 4 (a state
reachable from the fresh allocator by the successful call
alloc(2 ^ 64 - 4, 1)), the call alloc(1, 2 ^ 63 + 1) succeeds and
returns the pointer with address 2, which is not divisible by the
requested alignment 2 ^ 63 + 1. -/
theorem alloc_alignment_counterexample :
    (linear_allocator.alloc (mkAllocator 1 (2 ^ 64 - 1)) (2 ^ 64 - 4) 1).2
        = { arenaAddr := 1, capacity := 2 ^ 64 - 1, cursor := 2 ^ 64 - 4 }
    ∧ (linear_allocator.alloc { arenaAddr := 1, capacity := 2 ^ 64 - 1, cursor := 2 ^ 64 - 4 }
          1 (2 ^ 63 + 1)).1 = some 2
    ∧ (2 : Nat) % max (2 ^ 63 + 1) 1 ≠ 0 := by
  refine ⟨by decide, by decide, by decide⟩

/-- Claim C2 (amended): for every successful sequential alloc(n, a)
returning pointer p, provided the aligned-address computation cannot
wrap the 64-bit address space (arena_base + capacity + a < 2 ^ 64,
which holds for every arena over real mapped memory and reasonable
alignment): addr(p) is divisible by max(a, 1) (including
non-power-of-two a), arena_base <= addr(p),
addr(p) + n <= arena_base + capacity, and immediately afterwards
used() = (addr(p) - arena_base) + n. -/
theorem alloc_success_spec (st : AllocState) (n a p : Nat) (st2 : AllocState)
    (hwrap : st.arenaAddr + st.capacity + a < 2 ^ 64)
    (h : linear_allocator.alloc st n a = (some p, st2)) :
    p % max a 1 = 0
    ∧ st.arenaAddr ≤ p
    ∧ p + n ≤ st.arenaAddr + st.capacity
    ∧ linear_allocator.used st2 = (p - st.arenaAddr) + n
    ∧ st2.capacity = st.capacity ∧ st2.arenaAddr = st.arenaAddr := by
  unfold linear_allocator.alloc at h
  split at h
  · exact absurd h (by simp)
  split at h
  · exact absurd h (by simp)
  split at h
  · exact absurd h (by simp)
  split at h
  · exact absurd h (by simp)
  rename_i hn hcur hoffcap hfits
  push_neg at hn hcur hoffcap hfits
  rw [Prod.mk.injEq] at h
  obtain ⟨hp, hst2⟩ := h
  rw [Option.some.injEq] at hp
  -- name the pieces of the computation
  have hal1 : 0 < normAlign a := by
    unfold normAlign
    split <;> omega
  have halmax : normAlign a = max a 1 := normAlign_eq_max a
  have hal_le : normAlign a ≤ max a 1 := by omega
  have hmax_lt : max a 1 ≤ a + 1 := by omega
  have haddr_id : (st.arenaAddr + st.cursor) % 2 ^ 64 = st.arenaAddr + st.cursor :=
    Nat.mod_eq_of_lt (by omega)
  have hup : alignUp64 ((st.arenaAddr + st.cursor) % 2 ^ 64) (normAlign a)
      = alignUpMath (st.arenaAddr + st.cursor) (normAlign a) := by
    rw [haddr_id]
    exact alignUp64_eq _ _ hal1 (by omega)
  obtain ⟨hdvd, hge, hle⟩ := alignUpMath_spec (st.arenaAddr + st.cursor) (normAlign a) hal1
  set A := alignUpMath (st.arenaAddr + st.cursor) (normAlign a) with hA
  have hAlt : A < 2 ^ 64 := by omega
  have hoff : alignedOffAt st a = A - st.arenaAddr := by
    unfold alignedOffAt sub64
    rw [hup]
    rw [Nat.mod_eq_of_lt (show st.arenaAddr < 2 ^ 64 by omega)]
    have hspl : A + (2 ^ 64 - st.arenaAddr) = 2 ^ 64 + (A - st.arenaAddr) := by omega
    rw [hspl, Nat.add_mod_left]
    exact Nat.mod_eq_of_lt (by omega)
  rw [hoff] at hoffcap hfits hp hst2
  have hpA : p = A := by
    rw [← hp]
    have harw : st.arenaAddr + (A - st.arenaAddr) = A := by omega
    rw [harw]
    exact Nat.mod_eq_of_lt hAlt
  subst hpA
  refine ⟨?_, by omega, by omega, ?_, ?_, ?_⟩
  · rw [← halmax]
    obtain ⟨c, hc⟩ := hdvd
    rw [hc]
    exact Nat.mul_mod_right _ _
  · rw [← hst2]
    rfl
  · rw [← hst2]
  · rw [← hst2]

/-- Witness for C2 (amended) at a concrete input: a fresh allocator over
arena address 4096 with capacity 256; alloc(16, 8) returns pointer 4096,
8-aligned, in bounds, with used() = 16 afterwards. -/
theorem alloc_success_spec_witness :
    (4096 : Nat) % max 8 1 = 0
    ∧ (4096 : Nat) ≤ 4096
    ∧ (4096 : Nat) + 16 ≤ 4096 + 256
    ∧ linear_allocator.used { arenaAddr := 4096, capacity := 256, cursor := 16 }
        = (4096 - 4096) + 16 := by
  have h := alloc_success_spec (mkAllocator 4096 256) 16 8 4096
    { arenaAddr := 4096, capacity := 256, cursor := 16 } (by decide) (by decide)
  exact ⟨h.1, h.2.1, h.2.2.1, h.2.2.2.1⟩

/-! ### C3: allocation failure is in-band and leaves the cursor alone -/

/-- A failing alloc returns the state unchanged (every null-returning
branch of linear_allocator::alloc returns before the CAS). -/
lemma alloc_fail_state (st : AllocState) (n a : Nat)
    (h : (linear_allocator.alloc st n a).1 = none) :
    (linear_allocator.alloc st n a).2 = st := by
  unfold linear_allocator.alloc at h ⊢
  split_ifs at h ⊢ <;> rfl

/-- Claim C3: alloc(n, a) returns null exactly when n = 0 or the
observed cursor is already past capacity or the aligned request does not
fit the remaining capacity; in every such failure the cursor (used()) is
unchanged, no matter how many failing calls are made in sequence. -/
theorem alloc_failure_inband (st : AllocState) (n a : Nat) :
    ((linear_allocator.alloc st n a).1 = none ↔
      (n = 0 ∨ st.capacity < st.cursor ∨ st.capacity < alignedOffAt st a
        ∨ st.capacity - alignedOffAt st a < n))
    ∧ ((linear_allocator.alloc st n a).1 = none →
        linear_allocator.used (linear_allocator.alloc st n a).2
          = linear_allocator.used st)
    ∧ (∀ calls : List (Nat × Nat),
        (∀ c ∈ calls, (linear_allocator.alloc st c.1 c.2).1 = none) →
        List.foldl (fun s c => (linear_allocator.alloc s c.1 c.2).2) st calls = st) := by
  refine ⟨?_, ?_, ?_⟩
  · unfold linear_allocator.alloc
    split_ifs with h1 h2 h3 h4 <;> simp_all
  · intro h
    rw [alloc_fail_state st n a h]
  · intro calls hall
    induction calls with
    | nil => rfl
    | cons c rest ih =>
      have hc := hall c (List.mem_cons_self c rest)
      have hst : (linear_allocator.alloc st c.1 c.2).2 = st := alloc_fail_state _ _ _ hc
      simp only [List.foldl_cons, hst]
      exact ih (fun d hd => hall d (List.mem_cons_of_mem c hd))

/-- Witness for C3 at concrete inputs: on an arena of capacity 256 at
address 4096 with 200 bytes used, alloc(0, 1) and alloc(57, 1) fail and
a sequence of such failing calls leaves used() at 200. -/
theorem alloc_failure_inband_witness :
    (linear_allocator.alloc { arenaAddr := 4096, capacity := 256, cursor := 200 } 0 1).1 = none
    ∧ linear_allocator.used
        (linear_allocator.alloc
          { arenaAddr := 4096, capacity := 256, cursor := 200 } 57 1).2 = 200
    ∧ List.foldl (fun s c => (linear_allocator.alloc s c.1 c.2).2)
        { arenaAddr := 4096, capacity := 256, cursor := 200 }
        [(0, 1), (57, 1), (1000, 8)]
        = { arenaAddr := 4096, capacity := 256, cursor := 200 } := by
  refine ⟨?_, ?_, ?_⟩
  · exact (alloc_failure_inband { arenaAddr := 4096, capacity := 256, cursor := 200 } 0 1).1.mpr
      (Or.inl rfl)
  · have h := (alloc_failure_inband
      { arenaAddr := 4096, capacity := 256, cursor := 200 } 57 1).2.1 (by decide)
    rw [h]
    rfl
  · exact (alloc_failure_inband { arenaAddr := 4096, capacity := 256, cursor := 200 } 0 1).2.2
      [(0, 1), (57, 1), (1000, 8)] (by decide)

/-! ### C10: the cursor never exceeds the capacity -/

/-- A successful alloc leaves the cursor at most at capacity; any alloc
preserves the immutable fields. -/
lemma alloc_preserves (st : AllocState) (n a : Nat) :
    (linear_allocator.alloc st n a).2.capacity = st.capacity
    ∧ (linear_allocator.alloc st n a).2.arenaAddr = st.arenaAddr
    ∧ (st.cursor ≤ st.capacity →
        (linear_allocator.alloc st n a).2.cursor ≤ st.capacity) := by
  unfold linear_allocator.alloc
  split
  · exact ⟨rfl, rfl, fun h => h⟩
  split
  · exact ⟨rfl, rfl, fun h => h⟩
  split
  · exact ⟨rfl, rfl, fun h => h⟩
  split
  · exact ⟨rfl, rfl, fun h => h⟩
  · rename_i h1 h2 h3 h4
    push_neg at h3 h4
    exact ⟨rfl, rfl, fun _ => by simp only; omega⟩

/-- The cursor-at-most-capacity invariant is preserved by every
operation and the immutable fields never change. -/
lemma runOps_inv (ops : List AllocOp) (st : AllocState)
    (h : st.cursor ≤ st.capacity) :
    (runOps st ops).cursor ≤ (runOps st ops).capacity
    ∧ (runOps st ops).capacity = st.capacity := by
  induction ops generalizing st with
  | nil => exact ⟨h, rfl⟩
  | cons op rest ih =>
    have hstep : (runOp st op).cursor ≤ (runOp st op).capacity
        ∧ (runOp st op).capacity = st.capacity := by
      cases op with
      | alloc n a =>
        obtain ⟨hcap, _ha, hcur⟩ := alloc_preserves st n a
        refine ⟨?_, hcap⟩
        show (linear_allocator.alloc st n a).2.cursor
          ≤ (linear_allocator.alloc st n a).2.capacity
        rw [hcap]
        exact hcur h
      | reset => exact ⟨Nat.zero_le _, rfl⟩
      | secure_reset => exact ⟨Nat.zero_le _, rfl⟩
    have hrest := ih (runOp st op) hstep.1
    have hfold : runOps st (op :: rest) = runOps (runOp st op) rest := by
      simp [runOps]
    rw [hfold]
    exact ⟨hrest.1, by rw [hrest.2, hstep.2]⟩

/-- Claim C10: for every linear_allocator with capacity C, after any
sequence of alloc, reset and secure_reset calls starting from the
freshly constructed allocator, used() <= C; every successful alloc
leaves the cursor at a value at most C, and reset and secure_reset set
it to 0. -/
theorem cursor_bound_invariant :
    (∀ (arenaAddr capacity : Nat) (ops : List AllocOp),
      linear_allocator.used (runOps (mkAllocator arenaAddr capacity) ops) ≤ capacity)
    ∧ (∀ (st : AllocState) (n a p : Nat) (st2 : AllocState),
        linear_allocator.alloc st n a = (some p, st2) → st2.cursor ≤ st.capacity)
    ∧ (∀ st : AllocState, (linear_allocator.reset st).cursor = 0
        ∧ (linear_allocator.secure_reset st).cursor = 0) := by
  refine ⟨?_, ?_, fun st => ⟨rfl, rfl⟩⟩
  · intro arenaAddr capacity ops
    obtain ⟨h1, h2⟩ := runOps_inv ops (mkAllocator arenaAddr capacity) (Nat.zero_le _)
    have h2c : (runOps (mkAllocator arenaAddr capacity) ops).capacity = capacity := h2
    exact le_of_le_of_eq h1 h2c
  · intro st n a p st2 h
    unfold linear_allocator.alloc at h
    split at h
    · exact absurd h (by simp)
    split at h
    · exact absurd h (by simp)
    split at h
    · exact absurd h (by simp)
    split at h
    · exact absurd h (by simp)
    rename_i h1 h2 h3 h4
    push_neg at h3 h4
    rw [Prod.mk.injEq] at h
    rw [← h.2]
    simp only
    omega

/-- Witness for C10 at a concrete input: a fresh allocator of capacity
256 after an alloc, a failing alloc, a reset and another alloc keeps
used() at most 256; a successful alloc from used() = 0 stays in bounds;
the resets zero the cursor. -/
theorem cursor_bound_invariant_witness :
    linear_allocator.used
      (runOps (mkAllocator 4096 256)
        [AllocOp.alloc 200 16, AllocOp.alloc 300 1, AllocOp.reset,
         AllocOp.alloc 64 64, AllocOp.secure_reset]) ≤ 256
    ∧ ({ arenaAddr := 4096, capacity := 256, cursor := 16 } : AllocState).cursor ≤ 256
    ∧ (linear_allocator.reset (mkAllocator 4096 256)).cursor = 0
    ∧ (linear_allocator.secure_reset (mkAllocator 4096 256)).cursor = 0 := by
  obtain ⟨h1, h2, h3⟩ := cursor_bound_invariant
  refine ⟨h1 4096 256 _, ?_, (h3 (mkAllocator 4096 256)).1, (h3 (mkAllocator 4096 256)).2⟩
  exact h2 (mkAllocator 4096 256) 16 8 4096
    { arenaAddr := 4096, capacity := 256, cursor := 16 } (by decide)

/-! ### Segment (src/shmTypes.hpp lines 625-1330) -/

/-- detail::seg::nanosleep_backoff_ (lines 674-684): ns starts at
100 us; for attempt < 10 it is shifted left by attempt; then it is
clamped to max_ns = 10 ms. (For attempt >= 10 the shift is skipped and
the sleep stays at 100 us.) Result in nanoseconds. -/
def nanosleep_backoff_ (attempt : Nat) : Nat :=
  let maxNs : Nat := 10 * 1000 * 1000
  let ns0 : Nat := 100 * 1000
  let ns1 : Nat := if attempt < 10 then ns0 <<< attempt else ns0
  if maxNs < ns1 then maxNs else ns1

/-- Modelled from the spec words for comparison (section 5 of the spec
and claim C8): an exponential backoff that starts at 100 us and doubles
up to a 10 ms cap at every attempt. -/
def specBackoffNs (attempt : Nat) : Nat :=
  min (100000 * 2 ^ attempt) 10000000

/-- The fstat polling loop of the POSIX open path (lines 1196-1208):
walk the attempt indices in order; if the observed size is non-zero
stop with it, otherwise sleep nanosleep_backoff_(attempt) and continue.
Returns the observed size (none when every attempt saw zero) and the
total nanoseconds slept. -/
def pollGo (sizeAt : Nat → Nat) : List Nat → Nat → Option Nat × Nat
  | [], slept => (none, slept)
  | attempt :: rest, slept =>
      if 0 < sizeAt attempt then (some (sizeAt attempt), slept)
      else pollGo sizeAt rest (slept + nanosleep_backoff_ attempt)

/-- The full retry loop: 200 attempts (line 1199). -/
def pollRun (sizeAt : Nat → Nat) : Option Nat × Nat :=
  pollGo sizeAt (List.range 200) 0

/-- The open path after polling (lines 1210-1221): if the size is still
zero after the retries, raise; a non-zero existing size smaller than a
non-zero requested size raises; otherwise the segment exposes the
existing size. -/
def posix_open_existing (requested existing : Nat) : Except String Nat :=
  if existing = 0 then
    Except.error "shm::segment: existing segment reports size 0 after retries"
  else if requested ≠ 0 ∧ existing < requested then
    Except.error "shm::segment: existing segment smaller than requested size"
  else Except.ok existing

/-- The Windows open path for an existing mapping (lines 1063-1079):
max_bytes is the queried section size; zero raises; an existing section
smaller than a non-zero requested size raises; otherwise the exposed
size is the requested size (or the existing size when the request was
zero). -/
def win32_open_existing (requested maxBytes : Nat) : Except String Nat :=
  if maxBytes = 0 then
    Except.error "query mapping size (0)"
  else if requested ≠ 0 ∧ maxBytes < requested then
    Except.error "segment(open existing smaller than requested)"
  else Except.ok (if requested = 0 then maxBytes else requested)

/-! ### C7: open size-mismatch rule -/

/-- Claim C7 counterexample: opening an existing 200-byte mapping with
requested size 100 on the Windows path succeeds but exposes the
requested size 100, not the existing size 200 (exposed_size =
(size == 0) ? max_bytes : size at line 1072). -/
theorem open_size_windows_counterexample :
    win32_open_existing 100 200 = Except.ok 100
    ∧ win32_open_existing 100 200 ≠ Except.ok 200 := by
  have he : win32_open_existing 100 200 = Except.ok 100 := rfl
  refine ⟨he, ?_⟩
  rw [he]
  intro h
  exact absurd (Except.ok.inj h) (by decide)

/-- Claim C7 (amended): a non-zero requested size at most the existing
size succeeds on both open paths; the POSIX path exposes the existing
size while the Windows path exposes the requested size; a requested
size strictly greater than the existing size raises a failure on both
paths. -/
theorem open_size_mismatch (requested existing : Nat) (hreq : 0 < requested) :
    (requested ≤ existing →
      posix_open_existing requested existing = Except.ok existing
      ∧ win32_open_existing requested existing = Except.ok requested)
    ∧ (existing < requested →
        (∃ e, posix_open_existing requested existing = Except.error e)
        ∧ (∃ e, win32_open_existing requested existing = Except.error e)) := by
  constructor
  · intro hle
    have hex0 : existing ≠ 0 := by omega
    constructor
    · unfold posix_open_existing
      rw [if_neg hex0, if_neg (by omega)]
    · unfold win32_open_existing
      rw [if_neg hex0, if_neg (by omega), if_neg (by omega)]
  · intro hlt
    constructor
    · unfold posix_open_existing
      by_cases hex0 : existing = 0
      · rw [if_pos hex0]
        exact ⟨_, rfl⟩
      · rw [if_neg hex0, if_pos ⟨by omega, hlt⟩]
        exact ⟨_, rfl⟩
    · unfold win32_open_existing
      by_cases hex0 : existing = 0
      · rw [if_pos hex0]
        exact ⟨_, rfl⟩
      · rw [if_neg hex0, if_pos ⟨by omega, hlt⟩]
        exact ⟨_, rfl⟩

/-- Witness for C7 (amended) at concrete inputs: requested 100 against
existing 200 succeeds (POSIX exposes 200, Windows exposes 100), and
requested 300 against existing 200 fails on both paths. -/
theorem open_size_mismatch_witness :
    (posix_open_existing 100 200 = Except.ok 200
      ∧ win32_open_existing 100 200 = Except.ok 100)
    ∧ ((∃ e, posix_open_existing 300 200 = Except.error e)
      ∧ (∃ e, win32_open_existing 300 200 = Except.error e)) := by
  constructor
  · exact (open_size_mismatch 100 200 (by decide)).1 (by decide)
  · exact (open_size_mismatch 300 200 (by decide)).2 (by decide)

/-! ### C8: bounded size polling with backoff -/

/-- Claim C8 counterexample: the code backoff is not the doubling
schedule capped at 10 ms that the claim describes: at attempt 10 the
code sleeps 100 us (the shift applies only for attempt < 10) while the
described schedule sleeps the 10 ms cap. -/
theorem backoff_schedule_counterexample :
    nanosleep_backoff_ 10 = 100000
    ∧ specBackoffNs 10 = 10000000
    ∧ nanosleep_backoff_ 10 ≠ specBackoffNs 10 := by
  refine ⟨by decide, by decide, by decide⟩

lemma pollGo_none_iff (sizeAt : Nat → Nat) (l : List Nat) (s0 : Nat) :
    (pollGo sizeAt l s0).1 = none ↔ ∀ a ∈ l, sizeAt a = 0 := by
  induction l generalizing s0 with
  | nil => simp [pollGo]
  | cons a rest ih =>
    unfold pollGo
    by_cases h : 0 < sizeAt a
    · rw [if_pos h]
      simp only [List.mem_cons]
      constructor
      · intro hc
        exact absurd hc (by simp)
      · intro hall
        exact absurd (hall a (Or.inl rfl)) (by omega)
    · rw [if_neg h]
      rw [ih]
      simp only [List.mem_cons]
      constructor
      · intro hall b hb
        rcases hb with hb | hb
        · subst hb; omega
        · exact hall b hb
      · intro hall b hb
        exact hall b (Or.inr hb)

lemma foldl_add_ge (f : Nat → Nat) (l : List Nat) (s0 : Nat) :
    s0 ≤ l.foldl (fun s a => s + f a) s0 := by
  induction l generalizing s0 with
  | nil => exact Nat.le_refl _
  | cons b r ihr =>
    simp only [List.foldl_cons]
    exact le_trans (Nat.le_add_right s0 (f b)) (ihr (s0 + f b))

lemma pollGo_slept_le (sizeAt : Nat → Nat) (l : List Nat) (s0 : Nat) :
    (pollGo sizeAt l s0).2 ≤ l.foldl (fun s a => s + nanosleep_backoff_ a) s0 := by
  induction l generalizing s0 with
  | nil => exact Nat.le_refl _
  | cons a rest ih =>
    unfold pollGo
    by_cases h : 0 < sizeAt a
    · rw [if_pos h]
      simp only [List.foldl_cons]
      exact le_trans (Nat.le_add_right s0 (nanosleep_backoff_ a))
        (foldl_add_ge nanosleep_backoff_ rest (s0 + nanosleep_backoff_ a))
    · rw [if_neg h]
      simp only [List.foldl_cons]
      exact ih (s0 + nanosleep_backoff_ a)

set_option maxRecDepth 100000 in
/-- Claim C8 (amended): the open-path size polling performs a bounded,
fixed 200 attempts and raises an error exactly when all 200 observations
are zero; the per-attempt sleep is min(100 us shifted by attempt, 10 ms)
for attempts 0-9 and 100 us from attempt 10 on; the total sleep is at
most 61.7 ms, which is under the ~1 second wall-time bound. -/
theorem poll_bounded_backoff :
    (∀ sizeAt : Nat → Nat,
      ((pollRun sizeAt).1 = none ↔ ∀ a ∈ List.range 200, sizeAt a = 0))
    ∧ (∀ sizeAt : Nat → Nat, (pollRun sizeAt).2 ≤ 61700000)
    ∧ ((List.range 200).foldl (fun s a => s + nanosleep_backoff_ a) 0 = 61700000)
    ∧ (61700000 ≤ 1000000000)
    ∧ (∀ a ∈ List.range 10, nanosleep_backoff_ a = specBackoffNs a)
    ∧ (∀ a : Nat, 10 ≤ a → nanosleep_backoff_ a = 100000) := by
  have hsum : (List.range 200).foldl (fun s a => s + nanosleep_backoff_ a) 0
      = 61700000 := by decide
  refine ⟨?_, ?_, hsum, by decide, by decide, ?_⟩
  · intro sizeAt
    exact pollGo_none_iff sizeAt (List.range 200) 0
  · intro sizeAt
    have h := pollGo_slept_le sizeAt (List.range 200) 0
    rw [hsum] at h
    exact h
  · intro a ha
    unfold nanosleep_backoff_
    simp only
    rw [if_neg (show ¬ a < 10 by omega)]
    rw [if_neg (show ¬ ((10 * 1000 * 1000 : Nat) < 100 * 1000) by norm_num)]

/-- Witness for C8 (amended) at a concrete input: polling a size that
stays zero returns none with 61.7 ms of total sleep, and attempt 12
sleeps 100 us. -/
theorem poll_bounded_backoff_witness :
    ((pollRun (fun _ => 0)).1 = none)
    ∧ (pollRun (fun _ => 0)).2 ≤ 61700000
    ∧ nanosleep_backoff_ 12 = 100000 := by
  obtain ⟨h1, h2, _h3, _h4, _h5, h6⟩ := poll_bounded_backoff
  exact ⟨(h1 (fun _ => 0)).mpr (fun a _ => rfl), h2 (fun _ => 0), h6 12 (by decide)⟩

/-! ### C9: remove is idempotent; the destructor does not unlink -/

/-- detail::seg::normalize_name_ helper: drop trailing slashes while
more than one character remains (operating on the reversed character
list). -/
def stripRevSlashes : List Char → List Char
  | [] => []
  | c :: rest => if c = '/' ∧ rest ≠ [] then stripRevSlashes rest else c :: rest

/-- detail::seg::normalize_name_ (lines 628-634): a null or empty name
becomes empty; otherwise a leading slash is ensured and trailing slashes
are dropped down to a minimum length of one. -/
def normalize_name_ (cs : List Char) : List Char :=
  if cs = [] then []
  else
    let s := if cs.head? = some '/' then cs else '/' :: cs
    (stripRevSlashes s.reverse).reverse

/-- detail::seg::name_is_portable_ (lines 661-671): non-empty, starts
with a slash, at least two characters, and no further slash or NUL
byte. -/
def name_is_portable_ (s : List Char) : Bool :=
  match s with
  | [] => false
  | c :: rest =>
      c = '/' && !rest.isEmpty
        && rest.all (fun ch => !(ch = '/') && !(ch = Char.ofNat 0))

/-- The POSIX shared-memory name registry, as a duplicate-free list of
registered names; shm_unlink removes the name and reports success, or
fails with ENOENT when the name is absent. -/
def shm_unlink (reg : List (List Char)) (n : List Char) :
    Bool × List (List Char) :=
  if n ∈ reg then (true, reg.filter (fun m => m ≠ n)) else (false, reg)

/-- segment::remove (lines 1292-1306, POSIX branch): normalize the
name; an empty or non-portable name returns false without touching the
registry; otherwise shm_unlink, where rc == 0 returns true and the only
other outcome in this model is errno == ENOENT, which also returns
true. -/
def segment.remove (reg : List (List Char)) (name : List Char) :
    Bool × List (List Char) :=
  let n := normalize_name_ name
  if n = [] then (false, reg)
  else if name_is_portable_ n = false then (false, reg)
  else (true, (shm_unlink reg n).2)

/-- The process-visible OS state the destructor can touch: the shm name
registry, the open file descriptors and the live mappings. -/
structure OsState where
  registry : List (List Char)
  fds : List Int
  maps : List (Nat × Nat)

/-- munmap(base, map_size). -/
def munmapCall (os : OsState) (base mapSize : Nat) : OsState :=
  { os with maps := os.maps.filter (fun m => m ≠ (base, mapSize)) }

/-- close(fd) (wrapped in the EINTR retry, lines 1266-1268). -/
def closeCall (os : OsState) (fd : Int) : OsState :=
  { os with fds := os.fds.filter (fun f => f ≠ fd) }

/-- segment::~segment (lines 1261-1273, POSIX branch): munmap when the
base is set, close when the fd is open; no shm_unlink appears in the
destructor body. -/
def segment.dtor (os : OsState) (base mapSize : Nat) (fd : Int) : OsState :=
  let os1 := if base ≠ 0 then munmapCall os base mapSize else os
  if fd ≠ -1 then closeCall os1 fd else os1

/-- Claim C9: segment::remove succeeds exactly for well-formed names,
independently of whether the name is currently registered (ENOENT is
success), so calling it twice returns the same result and leaves the
same registry as calling it once; and the destructor never changes the
name registry (it only unmaps and closes). -/
theorem segment_remove_idempotent :
    (∀ (reg : List (List Char)) (name : List Char),
      (segment.remove reg name).1
        = (!(normalize_name_ name).isEmpty
            && name_is_portable_ (normalize_name_ name)))
    ∧ (∀ (reg : List (List Char)) (name : List Char),
        segment.remove (segment.remove reg name).2 name = segment.remove reg name)
    ∧ (∀ (os : OsState) (base mapSize : Nat) (fd : Int),
        (segment.dtor os base mapSize fd).registry = os.registry) := by
  refine ⟨?_, ?_, ?_⟩
  · intro reg name
    unfold segment.remove
    by_cases h1 : normalize_name_ name = []
    · rw [if_pos h1]
      simp [h1]
    · rw [if_neg h1]
      by_cases h2 : name_is_portable_ (normalize_name_ name) = false
      · rw [if_pos h2]
        simp [h2, List.isEmpty_iff, h1]
      · rw [if_neg h2]
        simp only [Bool.not_eq_false] at h2
        simp [h2, List.isEmpty_iff, h1]
  · intro reg name
    unfold segment.remove
    by_cases h1 : normalize_name_ name = []
    · rw [if_pos h1, if_pos h1]
    · rw [if_neg h1]
      by_cases h2 : name_is_portable_ (normalize_name_ name) = false
      · rw [if_pos h2, if_neg h1, if_pos h2]
      · rw [if_neg h2, if_neg h1, if_neg h2]
        unfold shm_unlink
        by_cases h3 : normalize_name_ name ∈ reg
        · rw [if_pos h3]
          have h4 : normalize_name_ name
              ∉ reg.filter (fun m => m ≠ normalize_name_ name) := by
            intro hmem
            have := List.of_mem_filter hmem
            simp at this
          rw [if_neg h4]
        · rw [if_neg h3, if_neg h3]
  · intro os base mapSize fd
    unfold segment.dtor munmapCall closeCall
    split <;> split <;> rfl

/-- Witness for C9 at concrete inputs: removing the registered name
/demo succeeds and empties the registry; removing it again also
succeeds and leaves the registry empty; the destructor leaves the
registry alone. -/
theorem segment_remove_idempotent_witness :
    segment.remove [['/', 'd']] ['/', 'd'] = (true, [])
    ∧ segment.remove (segment.remove [['/', 'd']] ['/', 'd']).2 ['/', 'd']
        = segment.remove [['/', 'd']] ['/', 'd']
    ∧ (segment.dtor { registry := [['/', 'd']], fds := [3], maps := [(4096, 8192)] }
        4096 8192 3).registry = [['/', 'd']] := by
  obtain ⟨_h1, h2, h3⟩ := segment_remove_idempotent
  refine ⟨by decide, h2 [['/', 'd']] ['/', 'd'],
    h3 { registry := [['/', 'd']], fds := [3], maps := [(4096, 8192)] } 4096 8192 3⟩

end Shm
